import Mathlib

/-!
# Verification of the Caller_project assignment core

Shallow embedding of the automatic caller-assignment core of the
Caller_project repository:

* `src/models/Caller.js` — `assignToEmployee`, `findById`,
  `getUnassignedCallers`;
* `src/models/User.js` — `getEmployeesWithCallerCount`;
* `src/utils/cronJobs.js` — `performAutoAssignment`,
  `triggerAutoAssignment`.

The database is a record of rows; each SQL statement issued through
`BaseModel.query` is one numbered store operation.  A failure schedule
`f : Nat → Bool` says which store operations raise the persistence error
(`BaseModel.query` wraps any driver error into `AppError.databaseError`,
the spec's `StoreFailure`); the query counter is threaded through the
execution so that the n-th query of a run fails iff `f n`.

Text columns (`name`, `email`, `phone`) are modelled as naturals: the
verified components use them only for equality and for the SQL
`ORDER BY u.name` comparison, both of which carry over.
-/

/-- `callers.status` column (enum `active` / `inactive`). -/
inductive CStatus where
  | active
  | inactive
deriving DecidableEq, Repr

/-- `caller_assignment_log.method` column (`'auto'` / `'manual'`). -/
inductive Method where
  | auto
  | manual
deriving DecidableEq, Repr

/-- One row of the `callers` table. -/
structure CallerRow where
  id : Nat
  name : Nat
  email : Nat
  phone : Nat
  created_at : Nat
  assigned_to : Option Nat
  assigned_at : Option Nat
  status : CStatus
  batch_id : Option Nat
deriving DecidableEq, Repr

/-- One row of the `users` table (the columns the assignment core reads). -/
structure UserRow where
  id : Nat
  name : Nat
  email : Nat
  phone : Nat
  role_id : Nat
deriving DecidableEq, Repr

/-- One row of the `caller_assignment_log` table, as written by the
`INSERT` in `Caller.assignToEmployee`. -/
structure LogRow where
  caller_id : Nat
  employee_id : Nat
  assigned_by : Nat
  method : Method
deriving DecidableEq, Repr

/-- The store: the two tables the core touches, the audit log, and the
value `NOW()` evaluates to (constant within one modelled execution). -/
structure DB where
  callers : List CallerRow
  users : List UserRow
  assignment_log : List LogRow
  now : Nat
deriving DecidableEq, Repr

/-- The `AppError` variants raised by the embedded operations:
`notFoundError` (spec `NotFound`), `conflictError 'CALLER_ALREADY_ASSIGNED'`
(spec `AlreadyAssigned`), `databaseError` (spec `StoreFailure`). -/
inductive DBErr where
  | notFound
  | conflict
  | databaseError
deriving DecidableEq, Repr

/-- `SELECT ... FROM callers c ... WHERE c.id = ?` followed by
`queryOne`: the first row with the given id, if any. -/
def findRow (db : DB) (id : Nat) : Option CallerRow :=
  db.callers.find? (fun c => c.id == id)

/-- Effect of `UPDATE callers SET assigned_to = ?, assigned_at = NOW()
WHERE id = ?` on the table. -/
def setAssigned (db : DB) (callerId employeeId : Nat) : DB :=
  { db with
    callers := db.callers.map (fun c =>
      if c.id == callerId then
        { c with assigned_to := some employeeId, assigned_at := some db.now }
      else c) }

/-- Effect of `INSERT INTO caller_assignment_log (caller_id, employee_id,
assigned_by, method) VALUES (?, ?, ?, ?)`. -/
def appendLog (db : DB) (callerId employeeId assignedBy : Nat)
    (method : Method) : DB :=
  { db with
    assignment_log :=
      db.assignment_log ++ [⟨callerId, employeeId, assignedBy, method⟩] }

/-- Result of one call to `Caller.assignToEmployee`: the store after the
call (including any partial effects left behind by a failure), the next
value of the query counter, and the outcome (`ok` carries the row
returned by the final `findById`). -/
structure OpResult where
  db : DB
  k : Nat
  res : Except DBErr CallerRow
deriving Repr

/-- `Caller.assignToEmployee(callerId, employeeId, assignedBy, method)`
(src/models/Caller.js, lines 247–279).  Four store operations in order:

1. `findById` — `SELECT ... WHERE c.id = ?`; throws `notFound` when no
   row matches; then the synchronous check
   `if (caller.assigned_to) throw conflictError(...)`;
2. `UPDATE callers SET assigned_to = ?, assigned_at = NOW()
   WHERE id = ?` — the `WHERE` clause tests only `id`;
3. `INSERT INTO caller_assignment_log ...`;
4. the final `return await this.findById(callerId)`.

Each operation fails with `databaseError` when the schedule `f` marks
its counter value; effects of operations already executed remain. -/
def assignToEmployee (db : DB) (f : Nat → Bool) (k : Nat)
    (callerId employeeId assignedBy : Nat) (method : Method) : OpResult :=
  -- query k: findById's SELECT
  if f k then ⟨db, k + 1, .error .databaseError⟩ else
  match findRow db callerId with
  | none => ⟨db, k + 1, .error .notFound⟩
  | some caller =>
    if caller.assigned_to.isSome then ⟨db, k + 1, .error .conflict⟩ else
    -- query k+1: the UPDATE (condition: `WHERE id = ?` only)
    if f (k + 1) then ⟨db, k + 2, .error .databaseError⟩ else
    let db1 := setAssigned db callerId employeeId
    -- query k+2: the audit-log INSERT (separate statement, no transaction)
    if f (k + 2) then ⟨db1, k + 3, .error .databaseError⟩ else
    let db2 := appendLog db1 callerId employeeId assignedBy method
    -- query k+3: `return await this.findById(callerId)`
    if f (k + 3) then ⟨db2, k + 4, .error .databaseError⟩ else
    match findRow db2 callerId with
    | none => ⟨db2, k + 4, .error .notFound⟩
    | some row => ⟨db2, k + 4, .ok row⟩

/-- The number of active callers currently assigned to user `uid`:
`COUNT(c.id)` over `LEFT JOIN callers c ON u.id = c.assigned_to AND
c.status = 'active'`. -/
def activeCallerCount (db : DB) (uid : Nat) : Nat :=
  (db.callers.filter (fun c =>
    c.assigned_to == some uid && c.status == CStatus.active)).length

/-- One row of the result set of `User.getEmployeesWithCallerCount`. -/
structure EmployeeCount where
  id : Nat
  name : Nat
  caller_count : Nat
deriving DecidableEq, Repr

/-- `ORDER BY caller_count ASC, u.name ASC` as a total preorder. -/
def empLE (a b : EmployeeCount) : Prop :=
  a.caller_count < b.caller_count ∨
    (a.caller_count = b.caller_count ∧ a.name ≤ b.name)

instance : DecidableRel empLE := fun a b => by
  unfold empLE; infer_instance

instance : IsTotal EmployeeCount empLE :=
  ⟨fun a b => by unfold empLE; omega⟩

instance : IsTrans EmployeeCount empLE :=
  ⟨fun a b c hab hbc => by unfold empLE at *; omega⟩

/-- `User.getEmployeesWithCallerCount` (src/models/User.js, lines
286–307): users with `role_id = 2`, each annotated with its active
caller count, ordered by `caller_count ASC, u.name ASC`. -/
def getEmployeesWithCallerCount (db : DB) : List EmployeeCount :=
  List.insertionSort empLE
    ((db.users.filter (fun u => u.role_id == 2)).map
      (fun u => ⟨u.id, u.name, activeCallerCount db u.id⟩))

/-- `ORDER BY c.created_at ASC` as a total preorder. -/
def callerLE (a b : CallerRow) : Prop :=
  a.created_at ≤ b.created_at

instance : DecidableRel callerLE := fun a b => by
  unfold callerLE; infer_instance

instance : IsTotal CallerRow callerLE :=
  ⟨fun a b => by unfold callerLE; omega⟩

instance : IsTrans CallerRow callerLE :=
  ⟨fun a b c hab hbc => by unfold callerLE at *; omega⟩

/-- `Caller.getUnassignedCallers(limit)` (src/models/Caller.js, lines
229–244): `WHERE c.assigned_to IS NULL AND c.status = 'active'
ORDER BY c.created_at ASC LIMIT ?`. -/
def getUnassignedCallers (db : DB) (limit : Nat) : List CallerRow :=
  (List.insertionSort callerLE
    (db.callers.filter (fun c =>
      c.assigned_to == none && c.status == CStatus.active))).take limit

/-- State returned by the assignment loops of `performAutoAssignment`:
the store, the query counter, the values of the local variables
`callerIndex` / `assignedCount`, and `attempts`, an observational trace
recording one `(caller.id, employee.id)` pair per iteration of the inner
`for (const caller of callersToAssign)` loop. -/
structure LoopState where
  db : DB
  k : Nat
  callerIndex : Nat
  assignedCount : Nat
  attempts : List (Nat × Nat)
deriving Repr

/-- The inner loop of `performAutoAssignment`
(src/utils/cronJobs.js, lines 108–124): one `Caller.assignToEmployee`
per caller of the slice, with the per-caller `try/catch` — a failed
commit is logged and skipped, `assignedCount` counts only successes. -/
def assignSlice (f : Nat → Bool) (employeeId : Nat) :
    List CallerRow → DB → Nat → Nat → List (Nat × Nat) →
      DB × Nat × Nat × List (Nat × Nat)
  | [], db, k, acc, tr => (db, k, acc, tr)
  | c :: rest, db, k, acc, tr =>
    match assignToEmployee db f k c.id employeeId 1 Method.auto with
    | ⟨db1, k1, .ok _⟩ => assignSlice f employeeId rest db1 k1 (acc + 1)
        (tr ++ [(c.id, employeeId)])
    | ⟨db1, k1, .error _⟩ => assignSlice f employeeId rest db1 k1 acc
        (tr ++ [(c.id, employeeId)])

/-- The outer `for (const employee of employees)` loop of
`performAutoAssignment` (src/utils/cronJobs.js, lines 99–128):
`break` once `callerIndex` reaches the fetched list's length; an
employee with `caller_count === 0` receives the slice
`unassignedCallers.slice(callerIndex, callerIndex + 100)` and
`callerIndex` advances by the slice's length. -/
def assignLoop (f : Nat → Bool) (unassigned : List CallerRow) :
    List EmployeeCount → DB → Nat → Nat → Nat → List (Nat × Nat) →
      LoopState
  | [], db, k, idx, acc, tr => ⟨db, k, idx, acc, tr⟩
  | e :: rest, db, k, idx, acc, tr =>
    if unassigned.length ≤ idx then ⟨db, k, idx, acc, tr⟩
    else if e.caller_count == 0 then
      let slice := (unassigned.drop idx).take 100
      match assignSlice f e.id slice db k acc tr with
      | (db1, k1, acc1, tr1) =>
        assignLoop f unassigned rest db1 k1 (idx + slice.length) acc1 tr1
    else assignLoop f unassigned rest db k idx acc tr

/-- Outcome of one `performAutoAssignment` run. -/
structure RunResult where
  /-- The store when the run ends. -/
  db : DB
  /-- Final value of the local `assignedCount` (0 on the early-return
  paths and when the outer `catch` runs). -/
  assignedCount : Nat
  /-- Final value of the local `callerIndex`. -/
  callerIndex : Nat
  /-- The trace of commit attempts (see `LoopState.attempts`). -/
  attempts : List (Nat × Nat)
  /-- The JS function's return value.  Every path of
  `performAutoAssignment` is `return;` or falls off the end, so the
  value is `undefined` (`none`) on every path. -/
  retVal : Option Nat
  /-- Whether the outer `catch` block ran. -/
  caught : Bool
deriving Repr

/-- The body of the outer `try` of `performAutoAssignment`
(src/utils/cronJobs.js, lines 75–131): query 0 reads the employee list,
query 1 reads the unassigned-caller batch (`LIMIT 100`); either read
failing propagates `databaseError` to the outer `catch`; an empty list
makes the run `return;` early. -/
def performAutoAssignmentBody (db : DB) (f : Nat → Bool) :
    Except DBErr RunResult :=
  -- query 0: User.getEmployeesWithCallerCount()
  if f 0 then .error .databaseError else
  let employees := getEmployeesWithCallerCount db
  if employees.isEmpty then .ok ⟨db, 0, 0, [], none, false⟩ else
  -- query 1: Caller.getUnassignedCallers(100)
  if f 1 then .error .databaseError else
  let unassigned := getUnassignedCallers db 100
  if unassigned.isEmpty then .ok ⟨db, 0, 0, [], none, false⟩ else
  match assignLoop f unassigned employees db 2 0 0 [] with
  | ⟨db1, _, idx, acc, tr⟩ => .ok ⟨db1, acc, idx, tr, none, false⟩

/-- `CronJobManager.performAutoAssignment` (src/utils/cronJobs.js,
lines 75–134): the whole body sits in `try { ... } catch (error) {
logger.error(...) }`, so an error escaping the body is swallowed and
the function returns `undefined` like every other path. -/
def performAutoAssignment (db : DB) (f : Nat → Bool) : RunResult :=
  match performAutoAssignmentBody db f with
  | .ok r => r
  | .error _ => ⟨db, 0, 0, [], none, true⟩

/-- `CronJobManager.triggerAutoAssignment` (src/utils/cronJobs.js,
lines 155–164): awaits `performAutoAssignment` and returns
`{success: true, message: 'Auto assignment completed'}`; its `catch`
branch (returning `success: false`) is reachable only if
`performAutoAssignment` throws. -/
def triggerAutoAssignment (db : DB) (f : Nat → Bool) :
    Bool × RunResult :=
  (true, performAutoAssignment db f)

/-!
## Interleaved executions of `assignToEmployee`

`assignToEmployee` suspends at each `await` (each store operation), so
a concurrent manual assignment and an automatic run can interleave at
those points.  A `Proc` is one in-flight `assignToEmployee` call; its
`pc` marks the next suspension point.  The synchronous
`if (caller.assigned_to) throw` check runs in the same step as the read
that precedes it (no `await` separates them).
-/

/-- One in-flight `Caller.assignToEmployee(callerId, employeeId,
assignedBy, method)` call. -/
structure Proc where
  callerId : Nat
  employeeId : Nat
  assignedBy : Nat
  method : Method
  /-- 0 = about to `findById`; 1 = about to `UPDATE`; 2 = about to
  `INSERT` the log row; 3 = about to re-`findById` and return;
  4 = finished. -/
  pc : Nat
  /-- The call's outcome once `pc = 4`. -/
  res : Option (Except DBErr Unit)
deriving Repr

/-- One store operation of an in-flight `assignToEmployee` call
(failure-free store). -/
def procStep (db : DB) (p : Proc) : DB × Proc :=
  match p.pc with
  | 0 =>
    -- `const caller = await this.findById(callerId)` plus the
    -- synchronous `if (caller.assigned_to) throw conflictError(...)`
    match findRow db p.callerId with
    | none => (db, { p with pc := 4, res := some (.error .notFound) })
    | some caller =>
      if caller.assigned_to.isSome then
        (db, { p with pc := 4, res := some (.error .conflict) })
      else (db, { p with pc := 1 })
  | 1 =>
    -- `UPDATE callers SET assigned_to = ?, assigned_at = NOW()
    --  WHERE id = ?` — unconditional on `assigned_to`
    (setAssigned db p.callerId p.employeeId, { p with pc := 2 })
  | 2 =>
    (appendLog db p.callerId p.employeeId p.assignedBy p.method,
     { p with pc := 3 })
  | 3 =>
    -- `return await this.findById(callerId)`
    (db, { p with pc := 4, res := some (.ok ()) })
  | _ => (db, p)

/-- Run two in-flight calls under an interleaving: `true` steps the
first process, `false` the second. -/
def runSched (db : DB) (a b : Proc) : List Bool → DB × Proc × Proc
  | [] => (db, a, b)
  | true :: rest =>
    match procStep db a with
    | (db1, a1) => runSched db1 a1 b rest
  | false :: rest =>
    match procStep db b with
    | (db1, b1) => runSched db1 a b1 rest

/-- A fresh in-flight call at its first suspension point. -/
def mkProc (callerId employeeId assignedBy : Nat) (method : Method) :
    Proc :=
  ⟨callerId, employeeId, assignedBy, method, 0, none⟩

/-!
## Concrete states

Small stores used to exercise the definitions at concrete inputs.
-/

/-- The failure-free schedule: every store operation succeeds. -/
def noFail : Nat → Bool := fun _ => false

/-- The schedule on which exactly the `j`-th store operation fails. -/
def failAt (j : Nat) : Nat → Bool := fun i => i == j

/-- An unassigned active caller: id `i + 1`, created at time `i`. -/
def fifoCaller (i : Nat) : CallerRow :=
  ⟨i + 1, 0, 0, 0, i, none, none, CStatus.active, none⟩

/-- An employee-role user (`role_id = 2`). -/
def empRow (id name : Nat) : UserRow := ⟨id, name, 0, 0, 2⟩

/-- 150 unassigned active callers and one idle employee (id 10). -/
def db150 : DB := ⟨(List.range 150).map fifoCaller, [empRow 10 1], [], 1000⟩

/-- 5 unassigned active callers and two idle employees: id 10 (name 1,
sorting first) and id 30 (name 3). -/
def db5 : DB :=
  ⟨(List.range 5).map fifoCaller, [empRow 10 1, empRow 30 3], [], 1000⟩

/-- 101 unassigned active callers and two idle employees. -/
def db101 : DB :=
  ⟨(List.range 101).map fifoCaller, [empRow 10 1, empRow 30 3], [], 1000⟩

/-- 3 unassigned active callers and one idle employee. -/
def db3 : DB := ⟨(List.range 3).map fifoCaller, [empRow 10 1], [], 1000⟩

/-- One unassigned active caller (id 1) and one idle employee (id 10). -/
def db1c : DB := ⟨[fifoCaller 0], [empRow 10 1], [], 1000⟩

/-- A store whose only caller is already assigned (to employee 7). -/
def dbTaken : DB :=
  ⟨[⟨1, 0, 0, 0, 0, some 7, some 500, CStatus.active, none⟩],
   [empRow 10 1], [], 1000⟩

/-- The cumulative effect on one row of a batch of `setAssigned`
updates: a row whose id is listed in `S` ends up assigned to `eid` at
time `now`; other rows are untouched. -/
def markAssigned (S : List Nat) (eid now : Nat) (r : CallerRow) :
    CallerRow :=
  if S.contains r.id then
    { r with assigned_to := some eid, assigned_at := some now }
  else r

/-!
## Lemmas about single store operations
-/

theorem find_map_of_preserve (g : CallerRow → CallerRow)
    (hg : ∀ c, (g c).id = c.id) (l : List CallerRow) (i : Nat) :
    (l.map g).find? (fun c => c.id == i)
      = Option.map g (l.find? (fun c => c.id == i)) := by
  induction l with
  | nil => rfl
  | cons a t ih =>
    simp only [List.map_cons, List.find?_cons, hg a]
    cases h : a.id == i <;> simp [h, ih]

theorem findRow_setAssigned (db : DB) (cid eid i : Nat) :
    findRow (setAssigned db cid eid) i
      = Option.map
          (fun r => if r.id == cid then
            { r with assigned_to := some eid, assigned_at := some db.now }
          else r)
          (findRow db i) := by
  unfold findRow setAssigned
  exact find_map_of_preserve _
    (fun c => by cases h : c.id == cid <;> simp [h]) _ _

/-!
## C1 — the assignment commit primitive
-/

/-- C1 (amended): on a failure-free commit, `assignToEmployee` sets the
caller's `assigned_to` to the employee and `assigned_at` to the current
time and appends exactly one log entry with the given method and actor;
but the two writes are two separate statements, not one atomic unit:
when the audit-log `INSERT` fails with a `StoreFailure`, the call
reports the failure while the `UPDATE` of the caller row stays visible
and no log entry exists — partial state is visible. -/
theorem assignToEmployee_success_and_torn_write (db : DB) (f : Nat → Bool)
    (k cid eid actor : Nat) (m : Method) (c : CallerRow)
    (hfind : findRow db cid = some c) (hun : c.assigned_to = none)
    (hk : f k = false) (hk1 : f (k + 1) = false) :
    (f (k + 2) = false → f (k + 3) = false →
      (assignToEmployee db f k cid eid actor m).db.callers
          = db.callers.map (fun r =>
              if r.id == cid then
                { r with assigned_to := some eid,
                         assigned_at := some db.now }
              else r)
        ∧ (assignToEmployee db f k cid eid actor m).db.assignment_log
            = db.assignment_log ++ [⟨cid, eid, actor, m⟩]
        ∧ ∃ row, (assignToEmployee db f k cid eid actor m).res = .ok row
            ∧ row.assigned_to = some eid ∧ row.assigned_at = some db.now)
    ∧ (f (k + 2) = true →
      (assignToEmployee db f k cid eid actor m).res
          = .error .databaseError
        ∧ (assignToEmployee db f k cid eid actor m).db.callers
            = db.callers.map (fun r =>
                if r.id == cid then
                  { r with assigned_to := some eid,
                           assigned_at := some db.now }
                else r)
        ∧ (assignToEmployee db f k cid eid actor m).db.assignment_log
            = db.assignment_log) := by
  have hc : c.id = cid := by
    have := List.find?_some hfind
    simpa using this
  constructor
  · intro h2 h3
    have hfind2 : findRow (appendLog (setAssigned db cid eid) cid eid actor m) cid
        = some { c with assigned_to := some eid, assigned_at := some db.now } := by
      have : findRow (setAssigned db cid eid) cid
          = some { c with assigned_to := some eid, assigned_at := some db.now } := by
        rw [findRow_setAssigned, hfind]
        simp [hc]
      simpa [findRow, appendLog] using this
    simp only [assignToEmployee, hk, hfind, hun, hk1, h2, h3]
    simp only [Option.isSome_none, Bool.false_eq_true, if_false]
    rw [hfind2]
    refine ⟨rfl, rfl, ⟨_, rfl, rfl, rfl⟩⟩
  · intro h2
    simp only [assignToEmployee, hk, hfind, hun, hk1, h2]
    simp only [Option.isSome_none, Bool.false_eq_true, if_false]
    exact ⟨rfl, rfl, rfl⟩

/-- C1 (counterexample): with one unassigned caller, failing exactly the
audit-log `INSERT` (store operation 2) makes `assignToEmployee` report a
`StoreFailure` while the caller row is already updated
(`assigned_to = 10`) and the log is still empty: the partial state IS
visible, refuting the all-or-nothing part of the claim. -/
theorem assignToEmployee_not_atomic :
    (assignToEmployee db1c (failAt 2) 0 1 10 9 Method.manual).res
        = .error .databaseError
      ∧ (assignToEmployee db1c (failAt 2) 0 1 10 9 Method.manual).db.callers.map
          (fun c => c.assigned_to) = [some 10]
      ∧ (assignToEmployee db1c (failAt 2) 0 1 10 9 Method.manual).db.assignment_log
          = [] :=
  ⟨rfl, by decide, rfl⟩

/-- C1 (witness): the success part of
`assignToEmployee_success_and_torn_write` at the one-caller store. -/
theorem assignToEmployee_success_and_torn_write_witness :
    (assignToEmployee db1c noFail 0 1 10 9 Method.manual).db.assignment_log
      = db1c.assignment_log ++ [⟨1, 10, 9, Method.manual⟩] :=
  ((assignToEmployee_success_and_torn_write db1c noFail 0 1 10 9 Method.manual
      (fifoCaller 0) (by decide) rfl rfl rfl).1 rfl rfl).2.1

/-!
## C8 — NotFound and AlreadyAssigned
-/

/-- C8: `assignToEmployee` fails with `notFound` when no caller row has
the given id, and with the `CALLER_ALREADY_ASSIGNED` conflict when the
referenced caller's `assigned_to` is already non-null; in both failure
cases the store is completely unchanged — no caller update and no audit
log entry. -/
theorem assignToEmployee_notFound_conflict (db : DB) (f : Nat → Bool)
    (k cid eid actor : Nat) (m : Method) (hk : f k = false) :
    ((∀ c ∈ db.callers, c.id ≠ cid) →
      (assignToEmployee db f k cid eid actor m).res = .error .notFound
        ∧ (assignToEmployee db f k cid eid actor m).db = db)
    ∧ (∀ c x, findRow db cid = some c → c.assigned_to = some x →
      (assignToEmployee db f k cid eid actor m).res = .error .conflict
        ∧ (assignToEmployee db f k cid eid actor m).db = db) := by
  constructor
  · intro habsent
    have hnone : findRow db cid = none := by
      unfold findRow
      rw [List.find?_eq_none]
      intro c hc
      simpa using habsent c hc
    simp only [assignToEmployee, hk, hnone]
    exact ⟨rfl, rfl⟩
  · intro c x hfind hass
    simp only [assignToEmployee, hk, hfind, hass]
    simp only [Option.isSome_some, if_true]
    exact ⟨rfl, rfl⟩

/-- C8 (witness): `assignToEmployee_notFound_conflict` applied to a
store with no caller id 5 (NotFound) and to a store whose caller 1 is
already assigned to employee 7 (AlreadyAssigned). -/
theorem assignToEmployee_notFound_conflict_witness :
    ((assignToEmployee db1c noFail 0 5 10 9 Method.manual).res
        = .error .notFound
      ∧ (assignToEmployee db1c noFail 0 5 10 9 Method.manual).db = db1c)
    ∧ ((assignToEmployee dbTaken noFail 0 1 10 9 Method.auto).res
        = .error .conflict
      ∧ (assignToEmployee dbTaken noFail 0 1 10 9 Method.auto).db
          = dbTaken) :=
  ⟨(assignToEmployee_notFound_conflict db1c noFail 0 5 10 9 Method.manual
      rfl).1 (by decide),
   (assignToEmployee_notFound_conflict dbTaken noFail 0 1 10 9 Method.auto
      rfl).2 ⟨1, 0, 0, 0, 0, some 7, some 500, CStatus.active, none⟩ 7
      (by decide) rfl⟩

/-!
## C2 — the check-then-act race
-/

/-- C2: the update that sets `assigned_to` is NOT an atomic
check-and-set — the code reads in one store operation and writes
unconditionally in another.  Interleaving a manual assignment (caller 1
to employee 2) with an automatic one (caller 1 to employee 3) so that
both reads happen before either write makes BOTH calls report success:
neither observes `AlreadyAssigned`, the final row points to employee 3
(silently overwriting employee 2), and two audit entries exist for one
caller.  This refutes the claimed check-and-set and its one-wins
guarantee on the code as written. -/
theorem assignToEmployee_race_both_succeed :
    (runSched db1c (mkProc 1 2 9 Method.manual) (mkProc 1 3 1 Method.auto)
        [true, false, true, true, true, false, false, false]).2.1.res
      = some (.ok ())
    ∧ (runSched db1c (mkProc 1 2 9 Method.manual) (mkProc 1 3 1 Method.auto)
        [true, false, true, true, true, false, false, false]).2.2.res
      = some (.ok ())
    ∧ (runSched db1c (mkProc 1 2 9 Method.manual) (mkProc 1 3 1 Method.auto)
        [true, false, true, true, true, false, false, false]).1.callers.map
        (fun c => c.assigned_to) = [some 3]
    ∧ (runSched db1c (mkProc 1 2 9 Method.manual) (mkProc 1 3 1 Method.auto)
        [true, false, true, true, true, false, false, false]).1.assignment_log
      = [⟨1, 2, 9, Method.manual⟩, ⟨1, 3, 1, Method.auto⟩] :=
  ⟨rfl, rfl, by decide, by decide⟩

/-!
## Shape of the two read operations
-/

theorem mem_getEmployeesWithCallerCount (db : DB) (e : EmployeeCount)
    (he : e ∈ getEmployeesWithCallerCount db) :
    ∃ u ∈ db.users, u.role_id = 2
      ∧ e = ⟨u.id, u.name, activeCallerCount db u.id⟩ := by
  unfold getEmployeesWithCallerCount at he
  rw [(List.perm_insertionSort empLE _).mem_iff] at he
  rcases List.mem_map.1 he with ⟨u, hu, rfl⟩
  rcases List.mem_filter.1 hu with ⟨humem, hrole⟩
  exact ⟨u, humem, by simpa using hrole, rfl⟩

theorem mem_getUnassignedCallers (db : DB) (limit : Nat) (c : CallerRow)
    (hc : c ∈ getUnassignedCallers db limit) :
    c ∈ db.callers ∧ c.assigned_to = none
      ∧ c.status = CStatus.active := by
  unfold getUnassignedCallers at hc
  have hc2 := (List.take_sublist _ _).mem hc
  rw [(List.perm_insertionSort callerLE _).mem_iff] at hc2
  rcases List.mem_filter.1 hc2 with ⟨hmem, hcond⟩
  simp only [Bool.and_eq_true, beq_iff_eq] at hcond
  exact ⟨hmem, hcond.1, hcond.2⟩

/-!
## What the assignment loops append to the audit log
-/
theorem assignToEmployee_log_cases (db : DB) (f : Nat → Bool)
    (k cid eid actor : Nat) (m : Method) :
    ∃ ext, (assignToEmployee db f k cid eid actor m).db.assignment_log
        = db.assignment_log ++ ext
      ∧ (ext = [] ∨ ext = [⟨cid, eid, actor, m⟩]) := by
  unfold assignToEmployee
  by_cases h0 : f k = true
  · simp only [h0, if_true]
    exact ⟨[], by simp, Or.inl rfl⟩
  simp only [h0, if_false, Bool.false_eq_true]
  cases hfr : findRow db cid with
  | none => exact ⟨[], by simp, Or.inl rfl⟩
  | some caller =>
    by_cases hca : caller.assigned_to.isSome = true
    · simp only [hca, if_true]
      exact ⟨[], by simp, Or.inl rfl⟩
    simp only [hca, if_false, Bool.false_eq_true]
    by_cases h1 : f (k + 1) = true
    · simp only [h1, if_true]
      exact ⟨[], by simp, Or.inl rfl⟩
    simp only [h1, if_false, Bool.false_eq_true]
    by_cases h2 : f (k + 2) = true
    · simp only [h2, if_true]
      exact ⟨[], by simp [setAssigned], Or.inl rfl⟩
    simp only [h2, if_false, Bool.false_eq_true]
    by_cases h3 : f (k + 3) = true
    · simp only [h3, if_true]
      exact ⟨[⟨cid, eid, actor, m⟩], by simp [appendLog, setAssigned],
        Or.inr rfl⟩
    simp only [h3, if_false, Bool.false_eq_true]
    cases hfr2 : findRow (appendLog (setAssigned db cid eid) cid eid actor m) cid with
    | none =>
      exact ⟨[⟨cid, eid, actor, m⟩], by simp [appendLog, setAssigned],
        Or.inr rfl⟩
    | some row =>
      exact ⟨[⟨cid, eid, actor, m⟩], by simp [appendLog, setAssigned],
        Or.inr rfl⟩
theorem assignSlice_log (f : Nat → Bool) (eid : Nat) (cs : List CallerRow)
    (db : DB) (k acc : Nat) (tr : List (Nat × Nat)) :
    ∃ ext, (assignSlice f eid cs db k acc tr).1.assignment_log
        = db.assignment_log ++ ext
      ∧ ((ext.map (fun r => r.caller_id)).Sublist
          (cs.map (fun c => c.id)))
      ∧ ∀ r ∈ ext, r.employee_id = eid ∧ r.method = Method.auto := by
  induction cs generalizing db k acc tr with
  | nil => exact ⟨[], by simp [assignSlice], by simp, by simp⟩
  | cons c rest ih =>
    rcases assignToEmployee_log_cases db f k c.id eid 1 Method.auto
      with ⟨ext0, hlog0, hcases⟩
    rcases hop : assignToEmployee db f k c.id eid 1 Method.auto
      with ⟨db0, k0, res0⟩
    rw [hop] at hlog0
    cases res0 with
    | ok row =>
      rcases ih db0 k0 (acc + 1) (tr ++ [(c.id, eid)])
        with ⟨ext1, hlog1, hsub1, hemp1⟩
      refine ⟨ext0 ++ ext1, ?_, ?_, ?_⟩
      · rw [assignSlice, hop]
        simp only at hlog0 ⊢
        rw [hlog1, hlog0, List.append_assoc]
      · rcases hcases with h | h <;> subst h
        · simp only [List.nil_append, List.map_cons]
          exact hsub1.cons _
        · simp only [List.cons_append, List.nil_append, List.map_cons]
          exact hsub1.cons₂ _
      · intro r hr
        rcases List.mem_append.1 hr with h | h
        · rcases hcases with he | he <;> subst he
          · simp at h
          · simp at h; subst h; exact ⟨rfl, rfl⟩
        · exact hemp1 r h
    | error e =>
      rcases ih db0 k0 acc (tr ++ [(c.id, eid)])
        with ⟨ext1, hlog1, hsub1, hemp1⟩
      refine ⟨ext0 ++ ext1, ?_, ?_, ?_⟩
      · rw [assignSlice, hop]
        simp only at hlog0 ⊢
        rw [hlog1, hlog0, List.append_assoc]
      · rcases hcases with h | h <;> subst h
        · simp only [List.nil_append, List.map_cons]
          exact hsub1.cons _
        · simp only [List.cons_append, List.nil_append, List.map_cons]
          exact hsub1.cons₂ _
      · intro r hr
        rcases List.mem_append.1 hr with h | h
        · rcases hcases with he | he <;> subst he
          · simp at h
          · simp at h; subst h; exact ⟨rfl, rfl⟩
        · exact hemp1 r h
theorem assignLoop_log (f : Nat → Bool) (un : List CallerRow)
    (emps : List EmployeeCount) (db : DB) (k idx acc : Nat)
    (tr : List (Nat × Nat)) :
    ∃ ext, (assignLoop f un emps db k idx acc tr).db.assignment_log
        = db.assignment_log ++ ext
      ∧ ((ext.map (fun r => r.caller_id)).Sublist
          ((un.drop idx).map (fun c => c.id)))
      ∧ ∀ r ∈ ext, (∃ e ∈ emps, e.caller_count = 0 ∧ r.employee_id = e.id)
          ∧ r.method = Method.auto := by
  induction emps generalizing db k idx acc tr with
  | nil => exact ⟨[], by simp [assignLoop], by simp, by simp⟩
  | cons e rest ih =>
    unfold assignLoop
    by_cases hbreak : un.length ≤ idx
    · simp only [hbreak, if_true]
      exact ⟨[], by simp, by simp, by simp⟩
    simp only [hbreak, if_false]
    by_cases hidle : e.caller_count == 0
    · simp only [hidle, if_true]
      rcases hs : assignSlice f e.id ((un.drop idx).take 100) db k acc tr
        with ⟨db1, k1, acc1, tr1⟩
      rcases assignSlice_log f e.id ((un.drop idx).take 100) db k acc tr
        with ⟨exts, hlogs, hsubs, hemps⟩
      rw [hs] at hlogs
      simp only at hlogs
      rcases ih db1 k1 (idx + ((un.drop idx).take 100).length) acc1 tr1
        with ⟨extr, hlogr, hsubr, hempr⟩
      refine ⟨exts ++ extr, by rw [hlogr, hlogs, List.append_assoc], ?_, ?_⟩
      · have hsli : ((un.drop idx).take 100).Sublist (un.drop idx) :=
          List.take_sublist _ _
        rcases le_or_lt (un.length - idx) 100 with hA | hB
        · have hlen : ((un.drop idx).take 100).length = un.length - idx := by
            simp [List.length_take, List.length_drop]; omega
          have hdrop : un.drop (idx + ((un.drop idx).take 100).length) = [] := by
            rw [hlen]
            exact List.drop_eq_nil_of_le (by omega)
          rw [hdrop] at hsubr
          simp only [List.map_nil, List.sublist_nil] at hsubr
          have hex : extr = [] := by
            rcases extr with _ | ⟨r, t⟩
            · rfl
            · simp at hsubr
          subst hex
          rw [List.append_nil]
          exact hsubs.trans (hsli.map _)
        · have hlen : ((un.drop idx).take 100).length = 100 := by
            simp [List.length_take, List.length_drop]; omega
          have hdrop : un.drop (idx + ((un.drop idx).take 100).length)
              = (un.drop idx).drop 100 := by
            rw [hlen, List.drop_drop, Nat.add_comm]
          rw [hdrop] at hsubr
          have hsplit : un.drop idx
              = (un.drop idx).take 100 ++ (un.drop idx).drop 100 :=
            (List.take_append_drop 100 (un.drop idx)).symm
          rw [hsplit, List.map_append, List.map_append]
          exact List.Sublist.append hsubs hsubr
      · intro r hr
        rcases List.mem_append.1 hr with h | h
        · rcases hemps r h with ⟨hre, hrm⟩
          exact ⟨⟨e, List.mem_cons_self e rest, by simpa using hidle, hre⟩,
            hrm⟩
        · rcases hempr r h with ⟨⟨e2, he2, hc2, hid2⟩, hrm⟩
          exact ⟨⟨e2, List.mem_cons_of_mem e he2, hc2, hid2⟩, hrm⟩
    · simp only [hidle, if_false]
      rcases ih db k idx acc tr with ⟨ext, hlog, hsub, hemp⟩
      refine ⟨ext, hlog, hsub, ?_⟩
      intro r hr
      rcases hemp r hr with ⟨⟨e2, he2, hc2, hid2⟩, hrm⟩
      exact ⟨⟨e2, List.mem_cons_of_mem e he2, hc2, hid2⟩, hrm⟩

/-!
## C3 — idle-only eligibility
-/

/-- C3: every audit entry present after a `performAutoAssignment` run
either predates the run or names an employee whose active caller count
was exactly zero at the start of the run: employees with a nonzero
count at the start of the run receive no assignment during the run. -/
theorem performAutoAssignment_idle_only (db : DB) (f : Nat → Bool)
    (entry : LogRow)
    (hmem : entry ∈ (performAutoAssignment db f).db.assignment_log) :
    entry ∈ db.assignment_log
      ∨ activeCallerCount db entry.employee_id = 0 := by
  unfold performAutoAssignment performAutoAssignmentBody at hmem
  by_cases h0 : f 0 = true
  · simp only [h0, if_true] at hmem
    exact Or.inl hmem
  simp only [h0, if_false, Bool.false_eq_true] at hmem
  by_cases hemp : (getEmployeesWithCallerCount db).isEmpty
  · simp only [hemp, if_true] at hmem
    exact Or.inl hmem
  simp only [hemp, if_false, Bool.false_eq_true] at hmem
  by_cases h1 : f 1 = true
  · simp only [h1, if_true] at hmem
    exact Or.inl hmem
  simp only [h1, if_false, Bool.false_eq_true] at hmem
  by_cases hun : (getUnassignedCallers db 100).isEmpty
  · simp only [hun, if_true] at hmem
    exact Or.inl hmem
  simp only [hun, if_false, Bool.false_eq_true] at hmem
  rcases hl : assignLoop f (getUnassignedCallers db 100)
      (getEmployeesWithCallerCount db) db 2 0 0 []
    with ⟨db1, k1, idx1, acc1, tr1⟩
  rw [hl] at hmem
  simp only at hmem
  rcases assignLoop_log f (getUnassignedCallers db 100)
      (getEmployeesWithCallerCount db) db 2 0 0 []
    with ⟨ext, hlog, hsub, hprop⟩
  rw [hl] at hlog
  simp only at hlog
  rw [hlog] at hmem
  rcases List.mem_append.1 hmem with h | h
  · exact Or.inl h
  · rcases hprop entry h with ⟨⟨e, he, hc0, hid⟩, _⟩
    rcases mem_getEmployeesWithCallerCount db e he with ⟨u, hu, hrole, hdef⟩
    right
    rw [hid]
    have : e.caller_count = activeCallerCount db e.id := by
      rw [hdef]
    rw [← this, hc0]

/-- C3 (witness): in the one-caller one-employee store, the entry the
run appended names employee 10, whose count at the start was zero. -/
theorem performAutoAssignment_idle_only_witness :
    (⟨1, 10, 1, Method.auto⟩ : LogRow)
        ∈ (performAutoAssignment db1c noFail).db.assignment_log
      ∧ ((⟨1, 10, 1, Method.auto⟩ : LogRow) ∈ db1c.assignment_log
          ∨ activeCallerCount db1c 10 = 0) :=
  ⟨by decide,
   performAutoAssignment_idle_only db1c noFail ⟨1, 10, 1, Method.auto⟩
     (by decide)⟩

theorem performAutoAssignment_log (db : DB) (f : Nat → Bool) :
    ∃ ext, (performAutoAssignment db f).db.assignment_log
        = db.assignment_log ++ ext
      ∧ ((ext.map (fun r => r.caller_id)).Sublist
          ((getUnassignedCallers db 100).map (fun c => c.id)))
      ∧ ∀ r ∈ ext,
          (∃ e ∈ getEmployeesWithCallerCount db,
            e.caller_count = 0 ∧ r.employee_id = e.id)
          ∧ r.method = Method.auto := by
  unfold performAutoAssignment performAutoAssignmentBody
  by_cases h0 : f 0 = true
  · simp only [h0, if_true]
    exact ⟨[], by simp, by simp, by simp⟩
  simp only [h0, if_false, Bool.false_eq_true]
  by_cases hemp : (getEmployeesWithCallerCount db).isEmpty
  · simp only [hemp, if_true]
    exact ⟨[], by simp, by simp, by simp⟩
  simp only [hemp, if_false, Bool.false_eq_true]
  by_cases h1 : f 1 = true
  · simp only [h1, if_true]
    exact ⟨[], by simp, by simp, by simp⟩
  simp only [h1, if_false, Bool.false_eq_true]
  by_cases hun : (getUnassignedCallers db 100).isEmpty
  · simp only [hun, if_true]
    exact ⟨[], by simp, by simp, by simp⟩
  simp only [hun, if_false, Bool.false_eq_true]
  rcases hl : assignLoop f (getUnassignedCallers db 100)
      (getEmployeesWithCallerCount db) db 2 0 0 []
    with ⟨db1, k1, idx1, acc1, tr1⟩
  simp only
  rcases assignLoop_log f (getUnassignedCallers db 100)
      (getEmployeesWithCallerCount db) db 2 0 0 []
    with ⟨ext, hlog, hsub, hprop⟩
  rw [hl] at hlog
  simp only at hlog
  rw [List.drop_zero] at hsub
  exact ⟨ext, hlog, hsub, hprop⟩

/-!
## C4 — shape of the two reads and FIFO consumption
-/

/-- C4: the employee read yields exactly the `role_id = 2` users, each
annotated with its active caller count, sorted ascending by count then
name; the caller read yields at most 100 callers, each unassigned and
active and from the store, sorted ascending by `created_at`; and a run
appends audit entries whose caller ids form an order-preserving
subsequence of that FIFO read — no later-created caller is assigned
before an earlier one. -/
theorem autoAssignment_read_shape_fifo (db : DB) (f : Nat → Bool) :
    List.Sorted empLE (getEmployeesWithCallerCount db)
    ∧ (getEmployeesWithCallerCount db).Perm
        ((db.users.filter (fun u => u.role_id == 2)).map
          (fun u => ⟨u.id, u.name, activeCallerCount db u.id⟩))
    ∧ (getUnassignedCallers db 100).length ≤ 100
    ∧ List.Sorted callerLE (getUnassignedCallers db 100)
    ∧ (∀ c ∈ getUnassignedCallers db 100,
        c ∈ db.callers ∧ c.assigned_to = none
          ∧ c.status = CStatus.active)
    ∧ ∃ ext, (performAutoAssignment db f).db.assignment_log
          = db.assignment_log ++ ext
        ∧ (ext.map (fun r => r.caller_id)).Sublist
            ((getUnassignedCallers db 100).map (fun c => c.id)) := by
  refine ⟨?_, ?_, ?_, ?_, ?_, ?_⟩
  · exact List.sorted_insertionSort empLE _
  · exact List.perm_insertionSort empLE _
  · exact List.length_take_le _ _
  · exact List.Pairwise.sublist (List.take_sublist _ _)
      (List.sorted_insertionSort callerLE _)
  · exact fun c hc => mem_getUnassignedCallers db 100 c hc
  · rcases performAutoAssignment_log db f with ⟨ext, hlog, hsub, _⟩
    exact ⟨ext, hlog, hsub⟩

/-- C4 (witness): the shape properties instantiated on the five-caller
two-employee store. -/
theorem autoAssignment_read_shape_fifo_witness :
    (getUnassignedCallers db5 100).length ≤ 100
    ∧ ((fifoCaller 0) ∈ db5.callers ∧ (fifoCaller 0).assigned_to = none
        ∧ (fifoCaller 0).status = CStatus.active) :=
  ⟨(autoAssignment_read_shape_fifo db5 noFail).2.2.1,
   (autoAssignment_read_shape_fifo db5 noFail).2.2.2.2.1 (fifoCaller 0)
     (by decide)⟩

/-!
## C5 — batch ceiling and one-employee-at-a-time quota
-/

set_option maxRecDepth 1000000 in
/-- C5: with 150 unassigned callers and one idle employee (id 10), one
run assigns exactly 100 to that employee and leaves 50 unassigned; with
5 unassigned callers and two idle employees where employee 10 orders
before employee 30, employee 10 receives all 5 and employee 30 receives
none — one employee's quota is filled before the next is considered. -/
theorem performAutoAssignment_batch_ceiling :
    ((performAutoAssignment db150 noFail).db.callers.filter
        (fun c => c.assigned_to == some 10)).length = 100
    ∧ ((performAutoAssignment db150 noFail).db.callers.filter
        (fun c => c.assigned_to == none
          && c.status == CStatus.active)).length = 50
    ∧ (performAutoAssignment db150 noFail).assignedCount = 100
    ∧ ((performAutoAssignment db5 noFail).db.callers.filter
        (fun c => c.assigned_to == some 10)).length = 5
    ∧ ((performAutoAssignment db5 noFail).db.callers.filter
        (fun c => c.assigned_to == some 30)).length = 0 :=
  ⟨by decide, by decide, by decide, by decide, by decide⟩

/-!
## C7 — return value and error propagation of the run
-/

/-- C7 (counterexample): a run that successfully assigns 3 callers still
returns `undefined` (not the count), and a store failure during the
read phase is swallowed by the outer catch instead of being thrown —
the state is left unchanged, and the manual trigger still reports
success. -/
theorem performAutoAssignment_counterexample :
    (performAutoAssignment db3 noFail).assignedCount = 3
    ∧ (performAutoAssignment db3 noFail).retVal = none
    ∧ performAutoAssignmentBody db3 (failAt 0) = .error .databaseError
    ∧ (performAutoAssignment db3 (failAt 0)).caught = true
    ∧ (performAutoAssignment db3 (failAt 0)).db = db3
    ∧ (triggerAutoAssignment db3 (failAt 0)).1 = true :=
  ⟨by decide, by decide, rfl, by decide, by decide, rfl⟩

/-- C7 (amended): `performAutoAssignment` returns no value at all
(`undefined` on every path — the assigned count is only logged), and it
never throws: any error escaping the body, including a read-phase store
failure, is caught by the outer catch, leaving the store unchanged, so
`triggerAutoAssignment` always reports success. -/
theorem performAutoAssignment_returns_nothing (db : DB) (f : Nat → Bool) :
    (performAutoAssignment db f).retVal = none
    ∧ (triggerAutoAssignment db f).1 = true
    ∧ ∀ e, performAutoAssignmentBody db f = .error e →
        (performAutoAssignment db f).caught = true
        ∧ (performAutoAssignment db f).db = db := by
  refine ⟨?_, rfl, ?_⟩
  · unfold performAutoAssignment performAutoAssignmentBody
    by_cases h0 : f 0 = true
    · simp only [h0, if_true]
    simp only [h0, if_false, Bool.false_eq_true]
    by_cases hemp : (getEmployeesWithCallerCount db).isEmpty
    · simp only [hemp, if_true]
    simp only [hemp, if_false, Bool.false_eq_true]
    by_cases h1 : f 1 = true
    · simp only [h1, if_true]
    simp only [h1, if_false, Bool.false_eq_true]
    by_cases hun : (getUnassignedCallers db 100).isEmpty
    · simp only [hun, if_true]
    simp only [hun, if_false, Bool.false_eq_true]
  · intro e he
    unfold performAutoAssignment
    rw [he]
    exact ⟨rfl, rfl⟩

/-- C7 (witness): the amended theorem applied at the three-caller store
with the schedule failing the read phase. -/
theorem performAutoAssignment_returns_nothing_witness :
    (performAutoAssignment db3 (failAt 0)).caught = true
    ∧ (performAutoAssignment db3 (failAt 0)).db = db3 :=
  (performAutoAssignment_returns_nothing db3 (failAt 0)).2.2
    DBErr.databaseError rfl

/-!
## The trace of commit attempts
-/

theorem assignSlice_attempts (f : Nat → Bool) (eid : Nat)
    (cs : List CallerRow) (db : DB) (k acc : Nat) (tr : List (Nat × Nat)) :
    (assignSlice f eid cs db k acc tr).2.2.2
      = tr ++ cs.map (fun c => (c.id, eid)) := by
  induction cs generalizing db k acc tr with
  | nil => simp [assignSlice]
  | cons c rest ih =>
    rcases hop : assignToEmployee db f k c.id eid 1 Method.auto
      with ⟨db0, k0, res0⟩
    cases res0 with
    | ok row =>
      rw [assignSlice, hop]
      simp only
      rw [ih]
      simp
    | error e =>
      rw [assignSlice, hop]
      simp only
      rw [ih]
      simp

theorem assignLoop_attempts (f : Nat → Bool) (un : List CallerRow)
    (emps : List EmployeeCount) (db : DB) (k idx acc : Nat)
    (tr : List (Nat × Nat)) :
    idx ≤ (assignLoop f un emps db k idx acc tr).callerIndex
    ∧ (assignLoop f un emps db k idx acc tr).attempts.map Prod.fst
        = tr.map Prod.fst
          ++ ((un.drop idx).take
              ((assignLoop f un emps db k idx acc tr).callerIndex - idx)).map
            (fun c => c.id) := by
  induction emps generalizing db k idx acc tr with
  | nil => simp [assignLoop]
  | cons e rest ih =>
    unfold assignLoop
    by_cases hbreak : un.length ≤ idx
    · simp [hbreak]
    simp only [hbreak, if_false]
    by_cases hidle : e.caller_count == 0
    · simp only [hidle, if_true]
      rcases hs : assignSlice f e.id ((un.drop idx).take 100) db k acc tr
        with ⟨db1, k1, acc1, tr1⟩
      dsimp only
      have htr1 : tr1 = tr ++ ((un.drop idx).take 100).map
          (fun c => (c.id, e.id)) := by
        have h := assignSlice_attempts f e.id ((un.drop idx).take 100) db k
          acc tr
        rw [hs] at h
        exact h
      subst htr1
      rcases ih db1 k1 (idx + ((un.drop idx).take 100).length) acc1
          (tr ++ ((un.drop idx).take 100).map (fun c => (c.id, e.id)))
        with ⟨hle, hatt⟩
      refine ⟨by omega, ?_⟩
      rw [hatt]
      simp only [List.map_append, List.map_map, List.append_assoc]
      congr 1
      have hcomp : (Prod.fst ∘ fun (c : CallerRow) => (c.id, e.id))
          = fun (c : CallerRow) => c.id := rfl
      rw [hcomp]
      have htk : (un.drop idx).take (((un.drop idx).take 100).length)
          = (un.drop idx).take 100 := by
        rw [List.take_eq_take]
        simp [List.length_take, List.length_drop]
      have hdd : (un.drop idx).drop (((un.drop idx).take 100).length)
          = un.drop (idx + ((un.drop idx).take 100).length) := by
        rw [List.drop_drop, Nat.add_comm]
      have hsum : ((assignLoop f un rest db1 k1
              (idx + ((un.drop idx).take 100).length) acc1
              (tr ++ ((un.drop idx).take 100).map
                (fun c => (c.id, e.id)))).callerIndex - idx)
          = ((un.drop idx).take 100).length
            + ((assignLoop f un rest db1 k1
                (idx + ((un.drop idx).take 100).length) acc1
                (tr ++ ((un.drop idx).take 100).map
                  (fun c => (c.id, e.id)))).callerIndex
              - (idx + ((un.drop idx).take 100).length)) := by omega
      rw [hsum, List.take_add, List.map_append, htk, hdd]
    · simp only [hidle, if_false]
      exact ih db k idx acc tr

theorem assignLoop_attempts_schedule_free (un : List CallerRow)
    (emps : List EmployeeCount) (f f' : Nat → Bool) (db db' : DB)
    (k k' idx acc acc' : Nat) (tr : List (Nat × Nat)) :
    (assignLoop f un emps db k idx acc tr).attempts
        = (assignLoop f' un emps db' k' idx acc' tr).attempts
    ∧ (assignLoop f un emps db k idx acc tr).callerIndex
        = (assignLoop f' un emps db' k' idx acc' tr).callerIndex := by
  induction emps generalizing f f' db db' k k' idx acc acc' tr with
  | nil => exact ⟨rfl, rfl⟩
  | cons e rest ih =>
    unfold assignLoop
    by_cases hbreak : un.length ≤ idx
    · simp [hbreak]
    simp only [hbreak, if_false]
    by_cases hidle : e.caller_count == 0
    · simp only [hidle, if_true]
      rcases hs : assignSlice f e.id ((un.drop idx).take 100) db k acc tr
        with ⟨db1, k1, acc1, tr1⟩
      rcases hs' : assignSlice f' e.id ((un.drop idx).take 100) db' k' acc'
          tr with ⟨db1', k1', acc1', tr1'⟩
      dsimp only
      have htr1 : tr1 = tr ++ ((un.drop idx).take 100).map
          (fun c => (c.id, e.id)) := by
        have h := assignSlice_attempts f e.id ((un.drop idx).take 100) db k
          acc tr
        rw [hs] at h
        exact h
      have htr1' : tr1' = tr ++ ((un.drop idx).take 100).map
          (fun c => (c.id, e.id)) := by
        have h := assignSlice_attempts f' e.id ((un.drop idx).take 100) db'
          k' acc' tr
        rw [hs'] at h
        exact h
      subst htr1
      subst htr1'
      exact ih f f' db1 db1' k1 k1' _ acc1 acc1' _
    · simp only [hidle, if_false]
      exact ih f f' db db' k k' idx acc acc' tr

theorem nodup_unassigned_ids (db : DB) (limit : Nat)
    (h : (db.callers.map (fun c => c.id)).Nodup) :
    ((getUnassignedCallers db limit).map (fun c => c.id)).Nodup := by
  unfold getUnassignedCallers
  have h1 : ((db.callers.filter (fun c =>
      c.assigned_to == none && c.status == CStatus.active)).map
        (fun c => c.id)).Nodup :=
    ((List.filter_sublist _).map _).nodup h
  have h2 : ((List.insertionSort callerLE
      (db.callers.filter (fun c =>
        c.assigned_to == none && c.status == CStatus.active))).map
          (fun c => c.id)).Nodup :=
    (((List.perm_insertionSort callerLE _).map _).nodup_iff).2 h1
  exact ((List.take_sublist _ _).map _).nodup h2

/-!
## C10 — failed commits still consume the FIFO index
-/

/-- C10: the commit attempts of one run are exactly the first
`callerIndex` callers of the FIFO read, in order — the index advances
by the full slice length whether or not individual commits succeed —
so the attempt trace does not depend on which commits fail (for any two
schedules that let the two reads succeed), and, when caller ids are
unique, no caller is ever offered twice within one run. -/
theorem performAutoAssignment_consumes_front (db : DB)
    (f f' : Nat → Bool) (h0 : f 0 = false) (h1 : f 1 = false)
    (h0' : f' 0 = false) (h1' : f' 1 = false) :
    ((performAutoAssignment db f).attempts.map Prod.fst
        = ((getUnassignedCallers db 100).take
            ((performAutoAssignment db f).callerIndex)).map
              (fun c => c.id))
    ∧ (performAutoAssignment db f).attempts
        = (performAutoAssignment db f').attempts
    ∧ (performAutoAssignment db f).callerIndex
        = (performAutoAssignment db f').callerIndex
    ∧ ((db.callers.map (fun c => c.id)).Nodup →
        ((performAutoAssignment db f).attempts.map Prod.fst).Nodup) := by
  have hshape : ∀ g : Nat → Bool, g 0 = false → g 1 = false →
      (performAutoAssignment db g).attempts.map Prod.fst
          = ((getUnassignedCallers db 100).take
              ((performAutoAssignment db g).callerIndex)).map
                (fun c => c.id) := by
    intro g hg0 hg1
    unfold performAutoAssignment performAutoAssignmentBody
    simp only [hg0, hg1, Bool.false_eq_true, if_false]
    by_cases hemp : (getEmployeesWithCallerCount db).isEmpty
    · simp [hemp]
    simp only [hemp, if_false, Bool.false_eq_true]
    by_cases hun : (getUnassignedCallers db 100).isEmpty
    · simp [hun]
    simp only [hun, if_false, Bool.false_eq_true]
    rcases hl : assignLoop g (getUnassignedCallers db 100)
        (getEmployeesWithCallerCount db) db 2 0 0 []
      with ⟨db1, k1, idx1, acc1, tr1⟩
    dsimp only
    have h := assignLoop_attempts g (getUnassignedCallers db 100)
      (getEmployeesWithCallerCount db) db 2 0 0 []
    rw [hl] at h
    simpa using h.2
  have hfree :
      (performAutoAssignment db f).attempts
          = (performAutoAssignment db f').attempts
      ∧ (performAutoAssignment db f).callerIndex
          = (performAutoAssignment db f').callerIndex := by
    unfold performAutoAssignment performAutoAssignmentBody
    simp only [h0, h1, h0', h1', Bool.false_eq_true, if_false]
    by_cases hemp : (getEmployeesWithCallerCount db).isEmpty
    · simp [hemp]
    simp only [hemp, if_false, Bool.false_eq_true]
    by_cases hun : (getUnassignedCallers db 100).isEmpty
    · simp [hun]
    simp only [hun, if_false, Bool.false_eq_true]
    rcases hl : assignLoop f (getUnassignedCallers db 100)
        (getEmployeesWithCallerCount db) db 2 0 0 []
      with ⟨db1, k1, idx1, acc1, tr1⟩
    rcases hl' : assignLoop f' (getUnassignedCallers db 100)
        (getEmployeesWithCallerCount db) db 2 0 0 []
      with ⟨db1', k1', idx1', acc1', tr1'⟩
    dsimp only
    have h := assignLoop_attempts_schedule_free (getUnassignedCallers db 100)
      (getEmployeesWithCallerCount db) f f' db db 2 2 0 0 0 []
    rw [hl, hl'] at h
    exact h
  refine ⟨hshape f h0 h1, hfree.1, hfree.2, ?_⟩
  intro hnodup
  rw [hshape f h0 h1]
  exact ((List.take_sublist _ _).map _).nodup
    (nodup_unassigned_ids db 100 hnodup)

/-- C10 (witness): the prefix-consumption theorem applied to the
three-caller store, one schedule failure-free and the other failing the
middle commit. -/
theorem performAutoAssignment_consumes_front_witness :
    (performAutoAssignment db3 noFail).attempts
      = (performAutoAssignment db3 (failAt 7)).attempts :=
  (performAutoAssignment_consumes_front db3 noFail (failAt 7)
    rfl rfl rfl rfl).2.1

/-!
## Successful commits in closed form
-/

theorem find?_of_nodup (l : List CallerRow) (c : CallerRow)
    (h : (l.map (fun x => x.id)).Nodup) (hc : c ∈ l) :
    l.find? (fun x => x.id == c.id) = some c := by
  induction l with
  | nil => cases hc
  | cons a t ih =>
    rw [List.map_cons, List.nodup_cons] at h
    rcases List.mem_cons.1 hc with rfl | hct
    · simp [List.find?_cons]
    · have hid : (a.id == c.id) = false := by
        rw [beq_eq_false_iff_ne]
        intro he
        exact h.1 (he ▸ List.mem_map_of_mem _ hct)
      rw [List.find?_cons, hid]
      exact ih h.2 hct

theorem markAssigned_comp (cid : Nat) (S : List Nat) (eid now : Nat)
    (r : CallerRow) :
    markAssigned S eid now
      (if r.id == cid then
        { r with assigned_to := some eid, assigned_at := some now }
      else r)
      = markAssigned (cid :: S) eid now r := by
  unfold markAssigned
  rw [List.contains_cons]
  by_cases h : r.id == cid
  · simp only [h, if_true, Bool.true_or]
    by_cases hc : S.contains r.id
    · simp [hc]
    · simp [hc]
  · simp only [h, if_false, Bool.false_eq_true, Bool.false_or]

theorem ids_map_of_preserve (g : CallerRow → CallerRow)
    (hg : ∀ r, (g r).id = r.id) (l : List CallerRow) :
    (l.map g).map (fun r => r.id) = l.map (fun r => r.id) := by
  rw [List.map_map]
  exact List.map_congr_left (fun a _ => hg a)

theorem assignToEmployee_ok (db : DB) (f : Nat → Bool) (k cid eid : Nat)
    (c : CallerRow) (hfind : findRow db cid = some c)
    (hun : c.assigned_to = none) (hk0 : f k = false)
    (hk1 : f (k + 1) = false) (hk2 : f (k + 2) = false)
    (hk3 : f (k + 3) = false) :
    (assignToEmployee db f k cid eid 1 Method.auto).db
        = appendLog (setAssigned db cid eid) cid eid 1 Method.auto
    ∧ (assignToEmployee db f k cid eid 1 Method.auto).k = k + 4
    ∧ ∃ row, (assignToEmployee db f k cid eid 1 Method.auto).res
        = .ok row := by
  have hc : c.id = cid := by simpa using List.find?_some hfind
  have hfind2 : findRow (appendLog (setAssigned db cid eid) cid eid 1
      Method.auto) cid
      = some { c with assigned_to := some eid,
                      assigned_at := some db.now } := by
    have h1 : findRow (setAssigned db cid eid) cid
        = some { c with assigned_to := some eid,
                        assigned_at := some db.now } := by
      rw [findRow_setAssigned, hfind]
      simp [hc]
    simpa [findRow, appendLog] using h1
  simp only [assignToEmployee, hk0, hk1, hk2, hk3,
    hfind, hun, Bool.false_eq_true, if_false]
  simp only [Option.isSome_none, Bool.false_eq_true, if_false]
  rw [hfind2]
  exact ⟨rfl, rfl, ⟨_, rfl⟩⟩

theorem assignToEmployee_update_fails (db : DB) (f : Nat → Bool)
    (k cid eid : Nat) (c : CallerRow) (hfind : findRow db cid = some c)
    (hun : c.assigned_to = none) (hk : f k = false)
    (hk1 : f (k + 1) = true) :
    (assignToEmployee db f k cid eid 1 Method.auto).db = db
    ∧ (assignToEmployee db f k cid eid 1 Method.auto).k = k + 2
    ∧ (assignToEmployee db f k cid eid 1 Method.auto).res
        = .error .databaseError := by
  simp only [assignToEmployee, hk, hfind, hun, hk1, Bool.false_eq_true,
    if_false]
  simp [Option.isSome_none]

theorem setAssigned_ids (db : DB) (cid eid : Nat) :
    ((setAssigned db cid eid).callers).map (fun r => r.id)
      = db.callers.map (fun r => r.id) :=
  ids_map_of_preserve _ (fun r => by cases h : r.id == cid <;> simp [h]) _

theorem assignSlice_all (f : Nat → Bool) (eid : Nat)
    (cs : List CallerRow) (db : DB) (k acc : Nat) (tr : List (Nat × Nat))
    (hf : ∀ i, k ≤ i → f i = false)
    (hdb : (db.callers.map (fun r => r.id)).Nodup)
    (hcs : ∀ c ∈ cs, c ∈ db.callers ∧ c.assigned_to = none)
    (hnd : (cs.map (fun c => c.id)).Nodup) :
    (assignSlice f eid cs db k acc tr).1.callers
        = db.callers.map
            (markAssigned (cs.map (fun c => c.id)) eid db.now)
    ∧ (assignSlice f eid cs db k acc tr).1.users = db.users
    ∧ (assignSlice f eid cs db k acc tr).1.now = db.now
    ∧ (assignSlice f eid cs db k acc tr).1.assignment_log
        = db.assignment_log
          ++ cs.map (fun c => (⟨c.id, eid, 1, Method.auto⟩ : LogRow))
    ∧ (assignSlice f eid cs db k acc tr).2.2.1 = acc + cs.length := by
  induction cs generalizing db k acc tr with
  | nil =>
    have hm : markAssigned [] eid db.now = id := funext fun r => rfl
    simp [assignSlice, hm]
  | cons c rest ih =>
    have hcmem := hcs c (List.mem_cons_self c rest)
    have hfind : findRow db c.id = some c :=
      find?_of_nodup db.callers c hdb hcmem.1
    obtain ⟨hdbeq, hkeq, row, hres⟩ :=
      assignToEmployee_ok db f k c.id eid c hfind hcmem.2
        (hf k (Nat.le_refl k)) (hf (k + 1) (by omega))
        (hf (k + 2) (by omega)) (hf (k + 3) (by omega))
    rcases hop : assignToEmployee db f k c.id eid 1 Method.auto
      with ⟨db0, k0, res0⟩
    rw [hop] at hdbeq hkeq hres
    dsimp only at hdbeq hkeq hres
    subst hres
    subst hkeq
    rw [List.map_cons, List.nodup_cons] at hnd
    have hg : db0.callers = db.callers.map (fun r =>
        if r.id == c.id then
          { r with assigned_to := some eid, assigned_at := some db.now }
        else r) := by
      rw [hdbeq]
      rfl
    have hdb0 : (db0.callers.map (fun r => r.id)).Nodup := by
      rw [hdbeq]
      have : ((appendLog (setAssigned db c.id eid) c.id eid 1
          Method.auto).callers).map (fun r => r.id)
          = db.callers.map (fun r => r.id) := setAssigned_ids db c.id eid
      rw [this]
      exact hdb
    have hcs0 : ∀ c' ∈ rest, c' ∈ db0.callers ∧ c'.assigned_to = none := by
      intro c' hc'
      have hmem := (hcs c' (List.mem_cons_of_mem c hc')).1
      have hassigned := (hcs c' (List.mem_cons_of_mem c hc')).2
      have hne : (c'.id == c.id) = false := by
        rw [beq_eq_false_iff_ne]
        intro he
        exact hnd.1 (he ▸ List.mem_map_of_mem _ hc')
      refine ⟨?_, hassigned⟩
      rw [hg]
      have := List.mem_map_of_mem (fun r =>
        if r.id == c.id then
          { r with assigned_to := some eid, assigned_at := some db.now }
        else r) hmem
      simpa [hne] using this
    have hnow0 : db0.now = db.now := by rw [hdbeq]; rfl
    have hlog0 : db0.assignment_log
        = db.assignment_log ++ [(⟨c.id, eid, 1, Method.auto⟩ : LogRow)] := by
      rw [hdbeq]
      rfl
    have husers0 : db0.users = db.users := by rw [hdbeq]; rfl
    rcases ih db0 (k + 4) (acc + 1) (tr ++ [(c.id, eid)])
        (fun i hi => hf i (by omega)) hdb0 hcs0 hnd.2
      with ⟨hcal, husr, hnow, hlog, hacc⟩
    have hstep : assignSlice f eid (c :: rest) db k acc tr
        = assignSlice f eid rest db0 (k + 4) (acc + 1)
            (tr ++ [(c.id, eid)]) := by
      rw [assignSlice, hop]
    rw [hstep]
    refine ⟨?_, by rw [husr, husers0], by rw [hnow, hnow0], ?_, ?_⟩
    · rw [hcal, hnow0, hg, List.map_map, List.map_cons]
      exact List.map_congr_left
        (fun r _ => by
          simpa [Function.comp] using
            markAssigned_comp c.id (rest.map (fun x : CallerRow => x.id))
              eid db.now r)
    · rw [hlog, hlog0, List.append_assoc, List.map_cons,
        List.singleton_append]
    · rw [hacc]
      simp only [List.length_cons]
      omega

theorem assignSlice_onefail (f : Nat → Bool) (eid : Nat)
    (cs1 : List CallerRow) (c : CallerRow) (cs2 : List CallerRow)
    (db : DB) (k acc : Nat) (tr : List (Nat × Nat))
    (hf : ∀ i, k ≤ i → (f i = true ↔ i = k + 4 * cs1.length + 1))
    (hdb : (db.callers.map (fun r => r.id)).Nodup)
    (hcs : ∀ x ∈ cs1 ++ c :: cs2, x ∈ db.callers ∧ x.assigned_to = none)
    (hnd : ((cs1 ++ c :: cs2).map (fun x => x.id)).Nodup) :
    (assignSlice f eid (cs1 ++ c :: cs2) db k acc tr).1.callers
        = db.callers.map
            (markAssigned ((cs1 ++ cs2).map (fun x => x.id)) eid db.now)
    ∧ (assignSlice f eid (cs1 ++ c :: cs2) db k acc tr).1.users = db.users
    ∧ (assignSlice f eid (cs1 ++ c :: cs2) db k acc tr).1.now = db.now
    ∧ (assignSlice f eid (cs1 ++ c :: cs2) db k acc tr).1.assignment_log
        = db.assignment_log
          ++ (cs1 ++ cs2).map
              (fun x => (⟨x.id, eid, 1, Method.auto⟩ : LogRow))
    ∧ (assignSlice f eid (cs1 ++ c :: cs2) db k acc tr).2.2.1
        = acc + cs1.length + cs2.length := by
  induction cs1 generalizing db k acc tr with
  | nil =>
    simp only [List.nil_append] at hcs hnd ⊢
    have hcmem := hcs c (List.mem_cons_self c cs2)
    have hfind : findRow db c.id = some c :=
      find?_of_nodup db.callers c hdb hcmem.1
    have hk : f k = false := by
      cases hfk : f k with
      | false => rfl
      | true =>
        have := (hf k (Nat.le_refl k)).1 hfk
        simp only [List.length_nil] at this
        omega
    have hk1 : f (k + 1) = true := by
      refine (hf (k + 1) (by omega)).2 ?_
      simp
    obtain ⟨hdbeq, hkeq, hres⟩ :=
      assignToEmployee_update_fails db f k c.id eid c hfind hcmem.2 hk hk1
    rcases hop : assignToEmployee db f k c.id eid 1 Method.auto
      with ⟨db0, k0, res0⟩
    rw [hop] at hdbeq hkeq hres
    dsimp only at hdbeq hkeq hres
    subst hdbeq
    subst hkeq
    have hstep : assignSlice f eid (c :: cs2) db0 k acc tr
        = assignSlice f eid cs2 db0 (k + 2) acc (tr ++ [(c.id, eid)]) := by
      rw [assignSlice, hop, hres]
    rw [hstep]
    rw [List.map_cons, List.nodup_cons] at hnd
    have hall := assignSlice_all f eid cs2 db0 (k + 2) acc
      (tr ++ [(c.id, eid)])
      (fun i hi => by
        cases hfi : f i with
        | false => rfl
        | true =>
          have := (hf i (by omega)).1 hfi
          simp only [List.length_nil] at this
          omega)
      hdb (fun x hx => hcs x (List.mem_cons_of_mem c hx)) hnd.2
    rcases hall with ⟨h1, h2, h3, h4, h5⟩
    exact ⟨h1, h2, h3, h4, by rw [h5]; simp⟩
  | cons a cs1' ih =>
    have hamem := hcs a (by simp)
    have hfind : findRow db a.id = some a :=
      find?_of_nodup db.callers a hdb hamem.1
    have hfland : ∀ j, k ≤ j → j ≤ k + 3 → f j = false := by
      intro j hj1 hj2
      cases hfj : f j with
      | false => rfl
      | true =>
        have := (hf j hj1).1 hfj
        simp only [List.length_cons] at this
        omega
    obtain ⟨hdbeq, hkeq, row, hres⟩ :=
      assignToEmployee_ok db f k a.id eid a hfind hamem.2
        (hfland k (Nat.le_refl k) (by omega))
        (hfland (k + 1) (by omega) (by omega))
        (hfland (k + 2) (by omega) (by omega))
        (hfland (k + 3) (by omega) (by omega))
    rcases hop : assignToEmployee db f k a.id eid 1 Method.auto
      with ⟨db0, k0, res0⟩
    rw [hop] at hdbeq hkeq hres
    dsimp only at hdbeq hkeq hres
    subst hres
    subst hkeq
    rw [List.cons_append, List.map_cons, List.nodup_cons] at hnd
    have hg : db0.callers = db.callers.map (fun r =>
        if r.id == a.id then
          { r with assigned_to := some eid, assigned_at := some db.now }
        else r) := by
      rw [hdbeq]
      rfl
    have hdb0 : (db0.callers.map (fun r => r.id)).Nodup := by
      rw [hdbeq]
      have h := setAssigned_ids db a.id eid
      have h2 : ((appendLog (setAssigned db a.id eid) a.id eid 1
          Method.auto).callers).map (fun r => r.id)
          = db.callers.map (fun r => r.id) := h
      rw [h2]
      exact hdb
    have hcs0 : ∀ x ∈ cs1' ++ c :: cs2,
        x ∈ db0.callers ∧ x.assigned_to = none := by
      intro x hx
      have hmem := (hcs x (List.mem_cons_of_mem a hx)).1
      have hassigned := (hcs x (List.mem_cons_of_mem a hx)).2
      have hne : (x.id == a.id) = false := by
        rw [beq_eq_false_iff_ne]
        intro he
        exact hnd.1 (he ▸ List.mem_map_of_mem _ hx)
      refine ⟨?_, hassigned⟩
      rw [hg]
      have := List.mem_map_of_mem (fun r =>
        if r.id == a.id then
          { r with assigned_to := some eid, assigned_at := some db.now }
        else r) hmem
      simpa [hne] using this
    have hnow0 : db0.now = db.now := by rw [hdbeq]; rfl
    have hlog0 : db0.assignment_log
        = db.assignment_log
          ++ [(⟨a.id, eid, 1, Method.auto⟩ : LogRow)] := by
      rw [hdbeq]
      rfl
    have husers0 : db0.users = db.users := by rw [hdbeq]; rfl
    have hlenrw : k + 4 * (a :: cs1').length + 1
        = (k + 4) + 4 * cs1'.length + 1 := by
      simp only [List.length_cons]
      omega
    have hf0 : ∀ i, k + 4 ≤ i →
        (f i = true ↔ i = (k + 4) + 4 * cs1'.length + 1) := by
      intro i hi
      rw [← hlenrw]
      exact hf i (by omega)
    rcases ih db0 (k + 4) (acc + 1) (tr ++ [(a.id, eid)]) hf0 hdb0 hcs0
        hnd.2
      with ⟨hcal, husr, hnow, hlog, hacc⟩
    have hstep : assignSlice f eid ((a :: cs1') ++ c :: cs2) db k acc tr
        = assignSlice f eid (cs1' ++ c :: cs2) db0 (k + 4) (acc + 1)
            (tr ++ [(a.id, eid)]) := by
      rw [List.cons_append, assignSlice, hop]
    rw [hstep]
    refine ⟨?_, by rw [husr, husers0], by rw [hnow, hnow0], ?_, ?_⟩
    · rw [hcal, hnow0, hg, List.map_map, List.cons_append, List.map_cons]
      exact List.map_congr_left
        (fun r _ => by
          simpa [Function.comp] using
            markAssigned_comp a.id
              ((cs1' ++ cs2).map (fun x : CallerRow => x.id)) eid db.now r)
    · rw [hlog, hlog0]
      simp
    · rw [hacc]
      simp only [List.length_cons]
      omega

/-!
## C6 — partial-failure isolation
-/

/-- C6: in a run over unassigned active callers `cs1 ++ c :: cs2` (ids
unique, stored in `created_at` order, at most 100 of them) with one
idle employee, failing exactly the `UPDATE` of the middle caller `c`
(store operation `4·|cs1| + 3`) leaves every caller before and after
`c` assigned and logged, counts `|cs1| + |cs2|` successes, keeps `c`
unchanged, and completes the run without throwing — one failed commit
never aborts the remainder of the batch. -/
theorem performAutoAssignment_partial_failure_isolation
    (cs1 : List CallerRow) (c : CallerRow) (cs2 : List CallerRow)
    (eid uname T : Nat) (db : DB)
    (hdb : db = ⟨cs1 ++ c :: cs2, [empRow eid uname], [], T⟩)
    (hnd : ((cs1 ++ c :: cs2).map (fun x => x.id)).Nodup)
    (hun : ∀ x ∈ cs1 ++ c :: cs2,
      x.assigned_to = none ∧ x.status = CStatus.active)
    (hsorted : List.Sorted callerLE (cs1 ++ c :: cs2))
    (hlen : (cs1 ++ c :: cs2).length ≤ 100) :
    (performAutoAssignment db (failAt (4 * cs1.length + 3))).db.callers
        = (cs1 ++ c :: cs2).map
            (markAssigned ((cs1 ++ cs2).map (fun x => x.id)) eid T)
    ∧ (performAutoAssignment db
        (failAt (4 * cs1.length + 3))).db.assignment_log
        = (cs1 ++ cs2).map
            (fun x => (⟨x.id, eid, 1, Method.auto⟩ : LogRow))
    ∧ (performAutoAssignment db (failAt (4 * cs1.length + 3))).assignedCount
        = cs1.length + cs2.length
    ∧ (performAutoAssignment db (failAt (4 * cs1.length + 3))).caught
        = false
    ∧ (∀ x ∈ cs1 ++ cs2,
        ({ x with assigned_to := some eid,
                  assigned_at := some T } : CallerRow)
          ∈ (performAutoAssignment db
              (failAt (4 * cs1.length + 3))).db.callers)
    ∧ c ∈ (performAutoAssignment db
        (failAt (4 * cs1.length + 3))).db.callers := by
  subst hdb
  have hf0 : failAt (4 * cs1.length + 3) 0 = false := by
    simp only [failAt, beq_eq_false_iff_ne]
    omega
  have hf1 : failAt (4 * cs1.length + 3) 1 = false := by
    simp only [failAt, beq_eq_false_iff_ne]
    omega
  have hcount : activeCallerCount
      ⟨cs1 ++ c :: cs2, [empRow eid uname], [], T⟩ eid = 0 := by
    unfold activeCallerCount
    rw [List.length_eq_zero, List.filter_eq_nil_iff]
    intro a ha
    simp [(hun a ha).1]
  have hemps : getEmployeesWithCallerCount
      ⟨cs1 ++ c :: cs2, [empRow eid uname], [], T⟩
      = [⟨eid, uname, 0⟩] := by
    unfold getEmployeesWithCallerCount
    dsimp only
    have hfil : List.filter (fun u => u.role_id == 2) [empRow eid uname]
        = [empRow eid uname] := rfl
    rw [hfil, List.map_cons, List.map_nil]
    dsimp only [empRow] at hcount ⊢
    rw [hcount]
    rfl
  have hunas : getUnassignedCallers
      ⟨cs1 ++ c :: cs2, [empRow eid uname], [], T⟩ 100
      = cs1 ++ c :: cs2 := by
    unfold getUnassignedCallers
    dsimp only
    have hfil : List.filter (fun x =>
        x.assigned_to == none && x.status == CStatus.active)
        (cs1 ++ c :: cs2) = cs1 ++ c :: cs2 :=
      List.filter_eq_self.2 (fun a ha => by
        simp [(hun a ha).1, (hun a ha).2])
    rw [hfil, hsorted.insertionSort_eq, List.take_of_length_le hlen]
  have hf2 : ∀ i, 2 ≤ i →
      (failAt (4 * cs1.length + 3) i = true
        ↔ i = 2 + 4 * cs1.length + 1) := by
    intro i hi
    simp only [failAt, beq_iff_eq]
    omega
  have honefail := assignSlice_onefail (failAt (4 * cs1.length + 3)) eid
    cs1 c cs2 ⟨cs1 ++ c :: cs2, [empRow eid uname], [], T⟩ 2 0 [] hf2
    hnd (fun x hx => ⟨hx, (hun x hx).1⟩) hnd
  rcases hs : assignSlice (failAt (4 * cs1.length + 3)) eid
      (cs1 ++ c :: cs2) ⟨cs1 ++ c :: cs2, [empRow eid uname], [], T⟩ 2 0 []
    with ⟨db1, k1, acc1, tr1⟩
  rw [hs] at honefail
  dsimp only at honefail
  rcases honefail with ⟨hcal, husr, hnow, hlog, hacc⟩
  have hbreak : ¬((cs1 ++ c :: cs2).length ≤ 0) := by
    simp only [List.length_append, List.length_cons]
    omega
  have hne : ¬((cs1 ++ c :: cs2).isEmpty = true) := by
    rw [List.isEmpty_iff]
    simp
  have hrun : performAutoAssignment
      ⟨cs1 ++ c :: cs2, [empRow eid uname], [], T⟩
      (failAt (4 * cs1.length + 3))
      = ⟨db1, acc1, 0 + (cs1 ++ c :: cs2).length, tr1, none, false⟩ := by
    unfold performAutoAssignment performAutoAssignmentBody
    simp only [hf0, hf1, Bool.false_eq_true, if_false, hemps,
      List.isEmpty_cons, hunas, if_neg hne]
    rw [assignLoop]
    simp only [if_neg hbreak]
    have hcc : ((⟨eid, uname, 0⟩ : EmployeeCount).caller_count == 0)
        = true := rfl
    simp only [hcc, if_true, List.drop_zero,
      List.take_of_length_le hlen, hs]
    rfl
  rw [hrun]
  dsimp only
  refine ⟨hcal, by rw [hlog]; rfl, by rw [hacc]; omega, rfl, ?_, ?_⟩
  · intro x hx
    have hxcs : x ∈ cs1 ++ c :: cs2 := by
      rcases List.mem_append.1 hx with h | h
      · exact List.mem_append_left _ h
      · exact List.mem_append_right _ (List.mem_cons_of_mem c h)
    have hcont : ((cs1 ++ cs2).map (fun y => y.id)).contains x.id
        = true :=
      List.elem_iff.2 (List.mem_map_of_mem _ hx)
    have hmark : markAssigned ((cs1 ++ cs2).map (fun y => y.id)) eid T x
        = { x with assigned_to := some eid, assigned_at := some T } := by
      unfold markAssigned
      rw [hcont]
      rfl
    rw [hcal]
    have hm := List.mem_map_of_mem
      (markAssigned ((cs1 ++ cs2).map (fun y => y.id)) eid T) hxcs
    rw [hmark] at hm
    exact hm
  · have hmid : ((cs1 ++ c :: cs2).map (fun x => x.id))
        = cs1.map (fun x => x.id) ++ c.id :: cs2.map (fun x => x.id) := by
      simp
    rw [hmid] at hnd
    have hnotin : c.id ∉ (cs1 ++ cs2).map (fun x => x.id) := by
      have h2 := (List.nodup_middle.1 hnd)
      rw [List.nodup_cons] at h2
      simpa using h2.1
    have hcont : ((cs1 ++ cs2).map (fun y => y.id)).contains c.id
        = false := by
      cases hcc : ((cs1 ++ cs2).map (fun y => y.id)).contains c.id with
      | false => rfl
      | true => exact absurd (List.elem_iff.1 hcc) hnotin
    have hmark : markAssigned ((cs1 ++ cs2).map (fun y => y.id)) eid T c
        = c := by
      unfold markAssigned
      rw [hcont]
      rfl
    rw [hcal]
    have hccs : c ∈ cs1 ++ c :: cs2 :=
      List.mem_append_right _ (List.mem_cons_self c cs2)
    have hm := List.mem_map_of_mem
      (markAssigned ((cs1 ++ cs2).map (fun y => y.id)) eid T) hccs
    rw [hmark] at hm
    exact hm

/-- C6 (witness): the isolation theorem on the three-caller store with
the middle commit's `UPDATE` failing (store operation 7). -/
theorem performAutoAssignment_partial_failure_isolation_witness :
    (performAutoAssignment db3 (failAt (4 * [fifoCaller 0].length + 3))).assignedCount
      = [fifoCaller 0].length + [fifoCaller 2].length
    ∧ fifoCaller 1 ∈ (performAutoAssignment db3
        (failAt (4 * [fifoCaller 0].length + 3))).db.callers :=
  ⟨(performAutoAssignment_partial_failure_isolation [fifoCaller 0]
      (fifoCaller 1) [fifoCaller 2] 10 1 1000 db3 (by decide) (by decide)
      (by decide) (by decide) (by decide)).2.2.1,
   (performAutoAssignment_partial_failure_isolation [fifoCaller 0]
      (fifoCaller 1) [fifoCaller 2] 10 1 1000 db3 (by decide) (by decide)
      (by decide) (by decide) (by decide)).2.2.2.2.2⟩

/-!
## Runs that assign everything or nothing
-/

theorem assignLoop_stop (f : Nat → Bool) (un : List CallerRow)
    (emps : List EmployeeCount) (db : DB) (k idx acc : Nat)
    (tr : List (Nat × Nat)) (h : un.length ≤ idx) :
    assignLoop f un emps db k idx acc tr = ⟨db, k, idx, acc, tr⟩ := by
  cases emps with
  | nil => rfl
  | cons e rest =>
    unfold assignLoop
    simp [h]

theorem assignLoop_no_idle (f : Nat → Bool) (un : List CallerRow)
    (emps : List EmployeeCount) (db : DB) (k idx acc : Nat)
    (tr : List (Nat × Nat)) (h : ∀ e ∈ emps, e.caller_count ≠ 0) :
    assignLoop f un emps db k idx acc tr = ⟨db, k, idx, acc, tr⟩ := by
  induction emps with
  | nil => rfl
  | cons e rest ih =>
    unfold assignLoop
    by_cases hbreak : un.length ≤ idx
    · simp [hbreak]
    simp only [hbreak, if_false]
    have hne : (e.caller_count == 0) = false := by
      rw [beq_eq_false_iff_ne]
      exact h e (List.mem_cons_self e rest)
    simp only [hne, if_false, Bool.false_eq_true]
    exact ih (fun e' he' => h e' (List.mem_cons_of_mem e he'))

theorem assignLoop_first_idle_takes_all (f : Nat → Bool)
    (un : List CallerRow) (emps : List EmployeeCount) (db : DB)
    (k acc : Nat) (tr : List (Nat × Nat))
    (hf : ∀ i, k ≤ i → f i = false)
    (hlen : un.length ≤ 100) (hpos : 0 < un.length)
    (hdb : (db.callers.map (fun r => r.id)).Nodup)
    (hcs : ∀ c ∈ un, c ∈ db.callers ∧ c.assigned_to = none)
    (hnd : (un.map (fun c => c.id)).Nodup)
    (hidle : ∃ e ∈ emps, e.caller_count = 0) :
    ∃ eid, (assignLoop f un emps db k 0 acc tr).db.callers
      = db.callers.map
          (markAssigned (un.map (fun c => c.id)) eid db.now) := by
  induction emps generalizing db k acc tr with
  | nil =>
    rcases hidle with ⟨e, he, _⟩
    cases he
  | cons e rest ih =>
    unfold assignLoop
    have hbreak : ¬(un.length ≤ 0) := by omega
    simp only [hbreak, if_false]
    by_cases hcc : e.caller_count == 0
    · simp only [hcc, if_true]
      rcases hs : assignSlice f e.id ((un.drop 0).take 100) db k acc tr
        with ⟨db1, k1, acc1, tr1⟩
      have hslice : (un.drop 0).take 100 = un := by
        rw [List.drop_zero, List.take_of_length_le hlen]
      rcases assignSlice_all f e.id ((un.drop 0).take 100) db k acc tr
          hf hdb (by rw [hslice]; exact hcs) (by rw [hslice]; exact hnd)
        with ⟨hcal, _, _, _, _⟩
      rw [hs] at hcal
      dsimp only at hcal
      rw [hslice] at hcal
      have hidx : un.length ≤ 0 + ((un.drop 0).take 100).length := by
        rw [hslice]
        omega
      rw [assignLoop_stop f un rest db1 k1
        (0 + ((un.drop 0).take 100).length) acc1 tr1 hidx]
      exact ⟨e.id, hcal⟩
    · simp only [hcc, if_false, Bool.false_eq_true]
      have hidle2 : ∃ e2 ∈ rest, e2.caller_count = 0 := by
        rcases hidle with ⟨e2, he2, hz⟩
        rcases List.mem_cons.1 he2 with rfl | hr
        · exact absurd (by simpa using hz) (by simpa using hcc)
        · exact ⟨e2, hr, hz⟩
      exact ih db k acc tr hf hdb hcs hidle2

theorem performAutoAssignment_noFail_trivial (db : DB)
    (h : (getEmployeesWithCallerCount db).isEmpty = true
      ∨ (getUnassignedCallers db 100).isEmpty = true) :
    performAutoAssignment db noFail = ⟨db, 0, 0, [], none, false⟩ := by
  unfold performAutoAssignment performAutoAssignmentBody
  have h0 : noFail 0 = false := rfl
  have h1 : noFail 1 = false := rfl
  simp only [h0, h1, Bool.false_eq_true, if_false]
  rcases h with h | h
  · simp [h]
  · by_cases hemp : (getEmployeesWithCallerCount db).isEmpty
    · simp [hemp]
    · simp [hemp, h]

theorem performAutoAssignment_noFail_loop (db : DB)
    (h1 : (getEmployeesWithCallerCount db).isEmpty = false)
    (h2 : (getUnassignedCallers db 100).isEmpty = false) :
    performAutoAssignment db noFail
      = ⟨(assignLoop noFail (getUnassignedCallers db 100)
            (getEmployeesWithCallerCount db) db 2 0 0 []).db,
         (assignLoop noFail (getUnassignedCallers db 100)
            (getEmployeesWithCallerCount db) db 2 0 0 []).assignedCount,
         (assignLoop noFail (getUnassignedCallers db 100)
            (getEmployeesWithCallerCount db) db 2 0 0 []).callerIndex,
         (assignLoop noFail (getUnassignedCallers db 100)
            (getEmployeesWithCallerCount db) db 2 0 0 []).attempts,
         none, false⟩ := by
  unfold performAutoAssignment performAutoAssignmentBody
  have hf0 : noFail 0 = false := rfl
  have hf1 : noFail 1 = false := rfl
  simp only [hf0, hf1, Bool.false_eq_true, if_false, h1, h2]

/-!
## C9 — idempotence of back-to-back runs
-/

set_option maxRecDepth 1000000 in
/-- C9 (counterexample): with 101 unassigned callers and two idle
employees, the first run fetches only 100 callers (the batch ceiling)
and the first employee takes all of them, so the second run still finds
one unassigned caller and the second — still idle — employee, and
assigns 1 caller, not 0: back-to-back runs are not a no-op. -/
theorem performAutoAssignment_not_idempotent :
    (performAutoAssignment (performAutoAssignment db101 noFail).db
        noFail).assignedCount = 1
    ∧ ¬((performAutoAssignment (performAutoAssignment db101 noFail).db
        noFail).assignedCount = 0) := by
  have h : (performAutoAssignment (performAutoAssignment db101 noFail).db
      noFail).assignedCount = 1 := by decide
  exact ⟨h, by omega⟩

/-- C9 (amended): when the first run's fetch captures the whole backlog
— at most 100 unassigned active callers exist (and caller ids are
unique) — running the engine twice in succession with no changes in
between assigns zero callers on the second run. -/
theorem performAutoAssignment_idempotent_small_backlog (db : DB)
    (hnd : (db.callers.map (fun r => r.id)).Nodup)
    (hfew : (db.callers.filter (fun c =>
      c.assigned_to == none && c.status == CStatus.active)).length
        ≤ 100) :
    (performAutoAssignment (performAutoAssignment db noFail).db
        noFail).assignedCount = 0 := by
  have hU : getUnassignedCallers db 100
      = List.insertionSort callerLE (db.callers.filter (fun c =>
          c.assigned_to == none && c.status == CStatus.active)) := by
    unfold getUnassignedCallers
    exact List.take_of_length_le (by
      rw [(List.perm_insertionSort callerLE _).length_eq]
      exact hfew)
  by_cases hemp : (getEmployeesWithCallerCount db).isEmpty = true
  · rw [performAutoAssignment_noFail_trivial db (Or.inl hemp)]
    dsimp only
    rw [performAutoAssignment_noFail_trivial db (Or.inl hemp)]
  by_cases hunE : (getUnassignedCallers db 100).isEmpty = true
  · rw [performAutoAssignment_noFail_trivial db (Or.inr hunE)]
    dsimp only
    rw [performAutoAssignment_noFail_trivial db (Or.inr hunE)]
  have hemp' : (getEmployeesWithCallerCount db).isEmpty = false :=
    Bool.eq_false_iff.2 hemp
  have hun' : (getUnassignedCallers db 100).isEmpty = false :=
    Bool.eq_false_iff.2 hunE
  by_cases hidle : ∃ e ∈ getEmployeesWithCallerCount db,
    e.caller_count = 0
  · have hpos : 0 < (getUnassignedCallers db 100).length :=
      List.length_pos.2 (fun h => by rw [h] at hun'; simp at hun')
    rcases assignLoop_first_idle_takes_all noFail
        (getUnassignedCallers db 100) (getEmployeesWithCallerCount db)
        db 2 0 [] (fun i _ => rfl) (List.length_take_le _ _) hpos hnd
        (fun c hc => ⟨(mem_getUnassignedCallers db 100 c hc).1,
          (mem_getUnassignedCallers db 100 c hc).2.1⟩)
        (nodup_unassigned_ids db 100 hnd) hidle
      with ⟨eid, hcal⟩
    rw [performAutoAssignment_noFail_loop db hemp' hun']
    dsimp only
    have hfilter1 : (assignLoop noFail (getUnassignedCallers db 100)
        (getEmployeesWithCallerCount db) db 2 0 0 []).db.callers.filter
          (fun c => c.assigned_to == none
            && c.status == CStatus.active) = [] := by
      rw [hcal, List.filter_eq_nil_iff]
      intro a ha
      rcases List.mem_map.1 ha with ⟨r, hr, rfl⟩
      by_cases hc : ((getUnassignedCallers db 100).map
          (fun c => c.id)).contains r.id = true
      · have hm : markAssigned ((getUnassignedCallers db 100).map
            (fun c => c.id)) eid db.now r
            = { r with assigned_to := some eid,
                       assigned_at := some db.now } := by
          unfold markAssigned
          rw [hc]
          simp
        rw [hm]
        simp
      · have hcf : ((getUnassignedCallers db 100).map
            (fun c => c.id)).contains r.id = false :=
          Bool.eq_false_iff.2 hc
        have hm : markAssigned ((getUnassignedCallers db 100).map
            (fun c => c.id)) eid db.now r = r := by
          unfold markAssigned
          rw [hcf]
          simp
        rw [hm]
        intro hp
        have hrf : r ∈ db.callers.filter (fun c =>
            c.assigned_to == none && c.status == CStatus.active) :=
          List.mem_filter.2 ⟨hr, hp⟩
        have hrs : r ∈ getUnassignedCallers db 100 := by
          rw [hU]
          exact ((List.perm_insertionSort callerLE _).mem_iff).2 hrf
        exact hc (List.elem_iff.2 (List.mem_map_of_mem _ hrs))
    have hgen : ∀ db2 : DB, db2.callers.filter (fun c =>
        c.assigned_to == none && c.status == CStatus.active) = [] →
        getUnassignedCallers db2 100 = [] := by
      intro db2 h
      unfold getUnassignedCallers
      rw [h]
      rfl
    have hun1 := hgen _ hfilter1
    by_cases hemp1 : (getEmployeesWithCallerCount (assignLoop noFail
        (getUnassignedCallers db 100) (getEmployeesWithCallerCount db)
        db 2 0 0 []).db).isEmpty = true
    · rw [performAutoAssignment_noFail_trivial _ (Or.inl hemp1)]
    · rw [performAutoAssignment_noFail_trivial _
        (Or.inr (by rw [hun1]; rfl))]
  · push_neg at hidle
    have hloop := assignLoop_no_idle noFail (getUnassignedCallers db 100)
      (getEmployeesWithCallerCount db) db 2 0 0 [] hidle
    rw [performAutoAssignment_noFail_loop db hemp' hun', hloop]
    dsimp only
    rw [performAutoAssignment_noFail_loop db hemp' hun', hloop]

/-- C9 (witness): the amended idempotence theorem on the five-caller
two-employee store. -/
theorem performAutoAssignment_idempotent_small_backlog_witness :
    (performAutoAssignment (performAutoAssignment db5 noFail).db
        noFail).assignedCount = 0 :=
  performAutoAssignment_idempotent_small_backlog db5 (by decide)
    (by decide)
